import Mathlib

/-!
Verification of the Gaussian FCHK codec (`iodata/formats/fchk.py`).

The Python source is shallowly embedded: pure helper functions become Lean
functions on `List ℚ` / `List Int`; the stateful line reader becomes a
recursive function over the list of remaining input lines; Python exceptions
become an explicit `Except PyErr` result.  Machine floats carrying numeric
field values are modelled by `ℚ` (none of the verified properties depend on
rounding), and numpy arrays by lists.
-/

set_option autoImplicit false

/-- Kinds of Python run-time failures the embedded code can raise.
`litError` is `lit.error(...)` on the `LineIterator`, the single channel used
both by the tokenizer ("Could not interpret", "Expected N= not found.") and by
the electron-count check in `load_one`; `valueError` is a `raise ValueError`;
`keyError` a dictionary lookup failure; `assertError` a failed `assert`;
`indexError` a `list.pop` on an empty list; `unboundLocal` a read of a local
variable that was never assigned. -/
inductive PyErr where
  | litError (msg : String)
  | valueError (msg : String)
  | keyError (key : String)
  | assertError
  | indexError (msg : String)
  | unboundLocal (name : String)
deriving DecidableEq, Repr

/-- Decidable equality of `Except` results, so that concrete runs of the
embedded code can be checked by `decide`. -/
instance {ε α : Type} [DecidableEq ε] [DecidableEq α] : DecidableEq (Except ε α) := fun a b =>
  match a, b with
  | .error e, .error f =>
    if h : e = f then isTrue (by rw [h]) else isFalse (by intro hh; cases hh; exact h rfl)
  | .ok x, .ok y =>
    if h : x = y then isTrue (by rw [h]) else isFalse (by intro hh; cases hh; exact h rfl)
  | .error _, .ok _ => isFalse (by intro hh; cases hh)
  | .ok _, .error _ => isFalse (by intro hh; cases hh)

/-! ## Python string primitives

Python slices strings by characters, so the embedding works on the character
list underlying a `String`. -/

/-- Python `line[:n]` (character slice, clamped at the end of the string). -/
def pyTake (s : String) (n : ℕ) : String := String.mk (s.data.take n)

/-- Python `line[n:]`. -/
def pyDrop (s : String) (n : ℕ) : String := String.mk (s.data.drop n)

/-- Python `str.strip()`: remove leading and trailing whitespace. -/
def pyStrip (s : String) : String :=
  String.mk (((s.data.dropWhile Char.isWhitespace).reverse.dropWhile Char.isWhitespace).reverse)

/-- Accumulator loop for `pySplit`. -/
def pySplitAux : List Char → List Char → List (List Char)
  | [], acc => if acc = [] then [] else [acc.reverse]
  | c :: cs, acc =>
    if c.isWhitespace then
      if acc = [] then pySplitAux cs [] else acc.reverse :: pySplitAux cs []
    else pySplitAux cs (c :: acc)

/-- Python `str.split()` with no argument: split on runs of whitespace,
discarding empty tokens. -/
def pySplit (s : String) : List String := (pySplitAux s.data []).map String.mk

/-- Numeric value of a digit string (most significant first). -/
def digitsToNat (ds : List Char) : ℕ :=
  ds.foldl (fun a c => 10 * a + (c.toNat - '0'.toNat)) 0

/-- Python `int(word)`: an optional sign followed by decimal digits.
(Pythonic extras such as underscores or surrounding whitespace never occur in
the streams under study.) -/
def pyInt? (w : String) : Option Int :=
  match w.data with
  | [] => none
  | '-' :: ds =>
    if ds ≠ [] ∧ ds.all Char.isDigit then some (-(digitsToNat ds : Int)) else none
  | '+' :: ds =>
    if ds ≠ [] ∧ ds.all Char.isDigit then some ((digitsToNat ds : Int)) else none
  | ds =>
    if ds.all Char.isDigit then some ((digitsToNat ds : Int)) else none

/-- Sign prefix of a Python numeric literal: returns (isNegative, rest). -/
def pySign : List Char → Bool × List Char
  | '-' :: cs => (true, cs)
  | '+' :: cs => (false, cs)
  | cs => (false, cs)

/-- Python `float(word)` on the decimal/scientific grammar used by FCHK files:
optional sign, integer and/or fractional digits, optional `e`/`E` exponent with
optional sign.  The result is the exact rational value (`float` rounding is
immaterial to the verified properties; `inf`/`nan` spellings never occur). -/
def pyFloat? (w : String) : Option ℚ :=
  let p := pySign w.data
  let m1 := p.2.span Char.isDigit
  let hasDot : Bool := match m1.2 with | '.' :: _ => true | _ => false
  let afterDot : List Char := match m1.2 with | '.' :: t => t | _ => m1.2
  let m2 := if hasDot then afterDot.span Char.isDigit else ([], m1.2)
  if m1.1 = [] ∧ m2.1 = [] then none
  else
    let mant : ℚ := (digitsToNat m1.1 : ℚ) + (digitsToNat m2.1 : ℚ) / (10 ^ m2.1.length)
    let res : Option ℚ :=
      match m2.2 with
      | [] => some mant
      | e :: t =>
        if e = 'e' ∨ e = 'E' then
          let q := pySign t
          let dd := q.2.span Char.isDigit
          if dd.1 = [] ∨ dd.2 ≠ [] then none
          else some (mant * (if q.1 then 1 / (10 ^ digitsToNat dd.1 : ℚ)
                             else (10 ^ digitsToNat dd.1 : ℚ)))
        else none
    res.map (fun q => if p.1 then -q else q)

/-- All suffixes of a list, longest first. -/
def listTails {α : Type} : List α → List (List α)
  | [] => [[]]
  | c :: cs => (c :: cs) :: listTails cs

/-- Unix shell-style wildcard matching on character lists: `*` matches any
(possibly empty) run — rendered as "some suffix of the text matches the rest
of the pattern" — `?` any single character, other characters literally.
This is `fnmatch.fnmatch` restricted to the pattern alphabet the codec uses
(none of its patterns contain `[...]` classes, and POSIX `normcase` is the
identity). -/
def fnmatchList : List Char → List Char → Bool
  | [], s => s.isEmpty
  | '*' :: ps, s => (listTails s).any (fun t => fnmatchList ps t)
  | '?' :: ps, s =>
    match s with
    | [] => false
    | _ :: cs => fnmatchList ps cs
  | p :: ps, s =>
    match s with
    | [] => false
    | c :: cs => if p = c then fnmatchList ps cs else false

/-- `fnmatch.fnmatch(s, pat)` for the codec's patterns. -/
def fnmatch (pat s : String) : Bool := fnmatchList pat.data s.data

/-- The pattern guard of `_load_fchk_field`: `label_patterns is None or
any(fnmatch(label, p) for p in label_patterns)`. -/
def matchesPatterns (pats : Option (List String)) (label : String) : Bool :=
  match pats with
  | none => true
  | some ps => ps.any (fun p => fnmatch p label)

/-! ## Quadrupole permutations (`load_one` line 219 and `_sort_quadrupole`) -/

/-- The load-side gather `fchk['Quadrupole Moment'][[0, 3, 4, 1, 5, 2]]`
(`load_one`, line 219).  `d` totalises out-of-range indexing; it is never hit
on the six-component vectors the code applies this to. -/
def loadQuadrupole {α : Type} (q : List α) (d : α) : List α :=
  [q.getD 0 d, q.getD 3 d, q.getD 4 d, q.getD 1 d, q.getD 5 d, q.getD 2 d]

/-- `_sort_quadrupole` (lines 551-575): `new[0]=q[0], new[1]=q[3], new[2]=q[5],
new[3]=q[1], new[4]=q[2], new[5]=q[4]`, with the empty-input guard. -/
def _sort_quadrupole {α : Type} (q : List α) (d : α) : List α :=
  if q.length ≠ 0 then
    [q.getD 0 d, q.getD 3 d, q.getD 5 d, q.getD 1 d, q.getD 2 d, q.getD 4 d]
  else []

/-! ## Occupation arrays (`load_one` D section) -/

/-- `np.zeros(n)` as a rational list. -/
def npZeros (n : ℕ) : List ℚ := List.replicate n 0

/-- Numpy slice assignment `l[:k] = v`: overwrite the first `k` entries
(clamped to the length of `l`, as numpy clamps slice bounds). -/
def sliceAssign : List ℚ → ℕ → ℚ → List ℚ
  | [], _, _ => []
  | _x :: xs, k + 1, v => v :: sliceAssign xs k v
  | x :: xs, 0, _v => x :: xs

/-- Restricted occupations (`load_one` lines 202-204):
`mo_occs = np.zeros(nbasis_indep); mo_occs[:nalpha] = 1.0; mo_occs[:nbeta] = 2.0`. -/
def mo_occs_restricted (nindep nalpha nbeta : ℕ) : List ℚ :=
  sliceAssign (sliceAssign (npZeros nindep) nalpha 1) nbeta 2

/-- Numpy slice assignment `l[a:b] = v` (clamped), used by the unrestricted
branch. -/
def sliceAssignFrom (l : List ℚ) (a b : ℕ) (v : ℚ) : List ℚ :=
  (l.enum).map (fun p => if a ≤ p.1 ∧ p.1 < b then v else p.2)

/-- Unrestricted occupations (`load_one` lines 196-198):
`mo_occs = np.zeros(2*nbasis_indep); mo_occs[:nalpha] = 1.0;
mo_occs[nbasis_indep:nbasis_indep+nbeta] = 1.0`. -/
def mo_occs_unrestricted (nindep nalpha nbeta : ℕ) : List ℚ :=
  sliceAssignFrom (sliceAssign (npZeros (2 * nindep)) nalpha 1) nindep (nindep + nbeta) 1

/-! ## The field reader (`_load_fchk_field`, lines 337-393)

A physical line of the input file is a `String`; the stream is the list of
lines not yet consumed by the cursor.  `Except PyErr (Option _)` mirrors the
Python control flow: `.error` is an uncaught exception, `.ok none` is
`StopIteration` escaping from `next(lit)` (which `_load_fchk_low` treats as
normal end of input, even when it happens in the middle of an array body), and
`.ok (some (field, rest))` is a successful `return` with `rest` the lines the
cursor has not yet passed. -/

/-- A parsed FCHK field value: scalar or array, integer or real. -/
inductive FieldValue where
  | intScalar (i : Int)
  | realScalar (q : ℚ)
  | intArray (a : List Int)
  | realArray (a : List ℚ)
deriving DecidableEq, Repr

/-- The array-body loop of `_load_fchk_field` (lines 382-392): consume exactly
`need` whitespace tokens, refilling the token buffer `ws` from the next line
whenever it is empty.  Leftover tokens on the final line are discarded.  An
unparsable token raises `lit.error`; a blank refill line makes
`words.pop(0)` raise `IndexError`; end of input propagates `StopIteration`. -/
def readArrayGo {α : Type} (parse : String → Option α) :
    ℕ → List String → List String → Except PyErr (Option (List α × List String))
  | 0, _ws, lines => .ok (some ([], lines))
  | _n + 1, [], [] => .ok none
  | n + 1, [], line :: rest =>
    match pySplit line with
    | [] => .error (.indexError ("pop from empty list"))
    | w :: ws =>
      match parse w with
      | none => .error (.litError ("Could not interpret: " ++ w))
      | some v =>
        match readArrayGo parse n ws rest with
        | .error e => .error e
        | .ok none => .ok none
        | .ok (some r) => .ok (some (v :: r.1, r.2))
  | n + 1, w :: ws, lines =>
    match parse w with
    | none => .error (.litError ("Could not interpret: " ++ w))
    | some v =>
      match readArrayGo parse n ws lines with
      | .error e => .error e
      | .ok none => .ok none
      | .ok (some r) => .ok (some (v :: r.1, r.2))

/-- Scalar-field branch of `_load_fchk_field` (lines 372-376): parse the single
value token as the declared type. -/
def parseScalarField (w0 label v : String) (rest : List String) :
    Except PyErr (Option ((String × FieldValue) × List String)) :=
  if w0 = "I" then
    match pyInt? v with
    | some i => .ok (some ((label, .intScalar i), rest))
    | none => .error (.litError ("Could not interpret: " ++ v))
  else
    match pyFloat? v with
    | some q => .ok (some ((label, .realScalar q), rest))
    | none => .error (.litError ("Could not interpret: " ++ v))

/-- Array-field branch of `_load_fchk_field` (lines 377-393): check the `N=`
marker, read the declared length with a bare `int(...)` (whose `ValueError`
is not converted by `lit.error`), build the zero array (numpy rejects a
negative length), and run the value loop. -/
def parseArrayField (w0 label nEq cnt : String) (rest : List String) :
    Except PyErr (Option ((String × FieldValue) × List String)) :=
  if nEq ≠ "N=" then .error (.litError ("Expected N= not found."))
  else
    match pyInt? cnt with
    | none => .error (.valueError ("invalid literal for int: " ++ cnt))
    | some len =>
      if len < 0 then .error (.valueError ("negative dimensions are not allowed"))
      else if w0 = "I" then
        match readArrayGo pyInt? len.toNat [] rest with
        | .error e => .error e
        | .ok none => .ok none
        | .ok (some r) => .ok (some ((label, .intArray r.1), r.2))
      else
        match readArrayGo pyFloat? len.toNat [] rest with
        | .error e => .error e
        | .ok none => .ok none
        | .ok (some r) => .ok (some ((label, .realArray r.1), r.2))

/-- `_load_fchk_field` (lines 337-393): scan for the next "sane header line"
(label in the first 43 columns, then tokens whose first is the `I`/`R` type
code) whose label matches one of `pats`, and parse its scalar or array value.
Lines with no tokens after column 43, lines whose first token is not a type
code, header lines with non-matching labels, and matching type-code lines with
an unexpected token count are all skipped by the `while True`/`continue`
loop. -/
def _load_fchk_field (pats : Option (List String)) :
    List String → Except PyErr (Option ((String × FieldValue) × List String))
  | [] => .ok none
  | line :: rest =>
    match pySplit (pyDrop line 43) with
    | [] => _load_fchk_field pats rest
    | w0 :: wrest =>
      if w0 = "I" ∨ w0 = "R" then
        if matchesPatterns pats (pyStrip (pyTake line 43)) then
          match wrest with
          | [v] => parseScalarField w0 (pyStrip (pyTake line 43)) v rest
          | [nEq, cnt] => parseArrayField w0 (pyStrip (pyTake line 43)) nEq cnt rest
          | _ => _load_fchk_field pats rest
        else _load_fchk_field pats rest
      else _load_fchk_field pats rest

/-- A line the reader's `while True` loop passes over without touching the
parsing branches: its post-column-43 part has no tokens, or its first token is
not a type code, or it is a type-code line whose label matches no pattern.
Every line of a numerically formatted array body is of this shape. -/
def skipLineB (pats : List String) (line : String) : Bool :=
  match pySplit (pyDrop line 43) with
  | [] => true
  | w :: _ =>
    if w = "I" ∨ w = "R" then !(matchesPatterns (some pats) (pyStrip (pyTake line 43)))
    else true

/-- The array-body loop never un-consumes lines: on success the remaining
stream is a suffix of the one it started from. -/
theorem readArrayGo_rest_le {α : Type} (parse : String → Option α) :
    ∀ (n : ℕ) (ws lines : List String) (vs : List α) (rem : List String),
      readArrayGo parse n ws lines = .ok (some (vs, rem)) → rem.length ≤ lines.length := by
  intro n
  induction n with
  | zero =>
    intro ws lines vs rem h
    simp only [readArrayGo] at h
    cases h
    exact le_rfl
  | succ n ih =>
    intro ws lines vs rem h
    cases ws with
    | cons w ws' =>
      simp only [readArrayGo] at h
      split at h
      · simp at h
      · split at h
        · simp at h
        · simp at h
        · next r hr =>
          cases h
          exact ih ws' lines r.1 r.2 hr
    | nil =>
      cases lines with
      | nil => simp [readArrayGo] at h
      | cons line rest =>
        simp only [readArrayGo] at h
        split at h
        · simp at h
        · next w ws' hs =>
          split at h
          · simp at h
          · split at h
            · simp at h
            · simp at h
            · next r hr =>
              cases h
              exact le_trans (ih ws' rest r.1 r.2 hr) (Nat.le_succ _)

/-- The scalar branch returns the lines it was handed. -/
theorem parseScalarField_rest (w0 label v : String) (rest : List String)
    (f : String × FieldValue) (rem : List String)
    (h : parseScalarField w0 label v rest = .ok (some (f, rem))) : rem = rest := by
  unfold parseScalarField at h
  split at h
  · cases hp : pyInt? v with
    | none => rw [hp] at h; simp at h
    | some i => rw [hp] at h; cases h; rfl
  · cases hp : pyFloat? v with
    | none => rw [hp] at h; simp at h
    | some q => rw [hp] at h; cases h; rfl

/-- The array branch only ever consumes lines. -/
theorem parseArrayField_rest_le (w0 label nEq cnt : String) (rest : List String)
    (f : String × FieldValue) (rem : List String)
    (h : parseArrayField w0 label nEq cnt rest = .ok (some (f, rem))) :
    rem.length ≤ rest.length := by
  unfold parseArrayField at h
  split at h
  · simp at h
  · split at h
    · simp at h
    · next len _hp =>
      split at h
      · simp at h
      · split at h
        · split at h
          · simp at h
          · simp at h
          · next r hr =>
            cases h
            exact readArrayGo_rest_le pyInt? len.toNat [] rest r.1 r.2 hr
        · split at h
          · simp at h
          · simp at h
          · next r hr =>
            cases h
            exact readArrayGo_rest_le pyFloat? len.toNat [] rest r.1 r.2 hr

/-- A successful read strictly advances the cursor. -/
theorem load_fchk_field_shrinks (pats : Option (List String)) :
    ∀ (lines : List String) (f : String × FieldValue) (rest : List String),
      _load_fchk_field pats lines = .ok (some (f, rest)) → rest.length < lines.length := by
  intro lines
  induction lines with
  | nil => intro f rest h; simp [_load_fchk_field] at h
  | cons line tl ih =>
    intro f rest h
    simp only [_load_fchk_field] at h
    split at h
    · exact lt_trans (ih f rest h) (Nat.lt_succ_self _)
    · next w0 wrest _hs =>
      split at h
      · split at h
        · split at h
          · next v =>
            have := parseScalarField_rest w0 _ v tl f rest h
            subst this
            exact Nat.lt_succ_self _
          · next nEq cnt =>
            exact Nat.lt_succ_of_le (parseArrayField_rest_le w0 _ nEq cnt tl f rest h)
          · exact lt_trans (ih f rest h) (Nat.lt_succ_self _)
        · exact lt_trans (ih f rest h) (Nat.lt_succ_self _)
      · exact lt_trans (ih f rest h) (Nat.lt_succ_self _)

/-- The `result[label] = value` collection loop of `_load_fchk_low`
(lines 326-333): drive `_load_fchk_field` until `StopIteration`, keeping every
matched field in order.  (The two header lines of the file and the
duplicate-label overwrite are orthogonal to the verified claims and are not
modelled here.) -/
def _load_fchk_low (pats : Option (List String)) (lines : List String) :
    Except PyErr (List (String × FieldValue)) :=
  match h : _load_fchk_field pats lines with
  | .error e => .error e
  | .ok none => .ok []
  | .ok (some (f, rest)) =>
    have : rest.length < lines.length := load_fchk_field_shrinks pats lines f rest h
    (_load_fchk_low pats rest).map (f :: ·)
termination_by lines.length

/-! ## Shell codec (`Shell`, `_get_TypeShell`, `_dump_basisInfo`) -/

/-- The `Shell` data object from `iodata.basis`: centre index, one or two
angular momenta with their pure (`"p"`) / Cartesian (`"c"`) kind tags, the
shared exponent list, and the contraction-coefficient matrix as a list of rows
(one row per primitive, one column per angular momentum). -/
structure Shell where
  icenter : ℕ
  angmoms : List ℕ
  kinds : List String
  exponents : List ℚ
  coeffs : List (List ℚ)
deriving DecidableEq, Repr

/-- `shell.coeffs.size` in numpy: the total number of matrix entries. -/
def Shell.coeffsSize (s : Shell) : ℕ := (s.coeffs.map List.length).sum

/-- `_get_TypeShell` (lines 578-600).  The Python local `kind` may be read
without ever being assigned (a two-momentum shell whose coefficient count is
not twice its exponent count, or a shell with zero or more than two momenta);
`none` models the resulting `UnboundLocalError`.  The defaults supplied to
`headD`/`getD` are unreachable: `angmoms[0]` / `kinds[0]` are only read when
`len(angmoms) == 1`. -/
def _get_TypeShell (shell : Shell) : Option Int :=
  let kind0 : Option Int :=
    if shell.angmoms.length = 1 then
      let kind : Int := (shell.angmoms.headD 0 : ℕ)
      if shell.kinds.getD 0 "" = "p" ∧ kind > 1 then some (kind * (-1)) else some kind
    else none
  if shell.angmoms.length = 2 then
    if 2 * shell.exponents.length = shell.coeffsSize then some (-1) else kind0
  else kind0

/-- The `shellTypes` list built by `_dump_basisInfo` (line 656):
`shellTypes.append(_get_TypeShell(basis.shells[i]))` for each shell. -/
def shellTypes (shells : List Shell) : List (Option Int) := shells.map _get_TypeShell

/-- The `pureDshells` counter of `_dump_basisInfo` (lines 669-671): the number
of shells with `shellTypes[i] == 2`, emitted as "Pure/Cartesian d shells". -/
def pureDshells (shells : List Shell) : ℕ :=
  ((shellTypes shells).filter (fun t => t = some 2)).length

/-- The `pureFshells` counter of `_dump_basisInfo` (lines 672-673): the number
of shells with `shellTypes[i] == 3`, emitted as "Pure/Cartesian f shells". -/
def pureFshells (shells : List Shell) : ℕ :=
  ((shellTypes shells).filter (fun t => t = some 3)).length

/-! ## Density-matrix dumper (`_dump_rdms`, lines 699-738)

Only the label-selection logic matters to the verified claims; flattening the
matrices (`_get_TriangleMat`) is verified separately.  The function returns
the ordered list of emitted field titles, or the Python error that aborts the
dump. -/

/-- Python `str.upper()` (character-wise upper-casing). -/
def pyUpper (s : String) : String := String.mk (s.data.map Char.toUpper)

/-- Whether the first character list is an initial segment of the second. -/
def startsWithSeq : List Char → List Char → Bool
  | [], _ => true
  | _ :: _, [] => false
  | a :: as, b :: bs => if a = b then startsWithSeq as bs else false

/-- Whether the first character list occurs contiguously in the second. -/
def containsSeq : List Char → List Char → Bool
  | as, [] => startsWithSeq as []
  | as, _b :: bs => startsWithSeq as (_b :: bs) || containsSeq as bs

/-- Python `a in b` on strings: substring containment. -/
def pyInStr (a b : String) : Bool := containsSeq a.data b.data

/-- The `namelevel` local after the `for i in level` loop (lines 722-725): the
last element of `['MP2', 'MP3', 'CC', 'CI']` contained in `lot`, if any
(`none` means the local was never assigned). -/
def namelevelOf (lot : String) : Option String :=
  (["MP2", "MP3", "CC", "CI"]).foldl (fun acc i => if pyInStr i lot then some i else acc) none

/-- Title selection for one density key (lines 727-736).  Reading `namelevel`
when the level loop never assigned it raises `UnboundLocalError`. -/
def rdmTitle (lot key : String) : Except PyErr String :=
  if key = "scf" then .ok ("Total SCF Density")
  else if key = "scf_spin" then .ok ("Spin SCF Density")
  else if key = "post_scf" then
    match namelevelOf lot with
    | some nl => .ok ("Total " ++ nl ++ " Density")
    | none => .error (.unboundLocal ("namelevel"))
  else if key = "post_scf_spin" then
    match namelevelOf lot with
    | some nl => .ok ("Spin " ++ nl ++ " Density")
    | none => .error (.unboundLocal ("namelevel"))
  else .ok ("Total SCF Density")

/-- `_dump_rdms` (lines 699-738), restricted to the emitted titles: the
`getattr(lot_tmp, 'upper')` probe replaces an absent level of theory by the
string `"None"`, the result is upper-cased, and each density key in order gets
its title. -/
def _dump_rdms (rdmKeys : List String) (lot_tmp : Option String) : Except PyErr (List String) :=
  let lot := pyUpper (match lot_tmp with | some s => s | none => "None")
  rdmKeys.mapM (rdmTitle lot)

/-! ## The orbital/density slice of `load_one` (sections C and D, lines 161-209)

The fields of `FchkWf` record exactly what that code slice reads from the
parsed field store: which density labels were present, the two electron
counts, the independent-function count and whether a beta-orbital-energy field
exists.  The coefficient/energy reshaping is value-passing only and cannot
raise on this slice, so it is not modelled. -/

/-- The inputs of `load_one` sections C-D. -/
structure FchkWf where
  hasTotalScf : Bool
  hasSpinScf : Bool
  hasPostScf : Bool
  hasPostScfSpin : Bool
  nalpha : Int
  nbeta : Int
  nbasisIndep : ℕ
  hasBetaEnergies : Bool
deriving DecidableEq, Repr

/-- The insertion-ordered key set of the `one_rdms` dict built by the
`_load_dm` calls (lines 162-168). -/
def oneRdmKeys (s : FchkWf) : List String :=
  (if s.hasTotalScf then ["scf"] else []) ++
  (if s.hasSpinScf then ["scf_spin"] else []) ++
  (if s.hasPostScf then ["post_scf"] else []) ++
  (if s.hasPostScfSpin then ["post_scf_spin"] else [])

/-- Outcome of the slice: the orbital variant, the occupation array, and the
density keys that survive into the result. -/
structure WfResult where
  restricted : Bool
  mo_occs : List ℚ
  rdmKeys : List String
deriving DecidableEq, Repr

/-- Sections C-D of `load_one` (lines 161-209): build `one_rdms` (stored in
the result only when non-empty, line 169), validate the electron counts
(lines 181-184: the first check aborts through `lit.error`, exactly the
channel the tokenizer uses for parse errors; the second through a bare
`ValueError`), then build the occupations.  In the restricted open-shell case
`result['one_rdms'].pop('scf')` (line 207) raises `KeyError('one_rdms')` when
no density was stored at all and `KeyError('scf')` when the total SCF density
is absent.  The `toNat` coercions are exact because the slice is reached only
with `nalpha ≥ nbeta ≥ 0`. -/
def loadOneWf (s : FchkWf) : Except PyErr WfResult :=
  let keys := oneRdmKeys s
  if s.nalpha < 0 ∨ s.nbeta < 0 ∨ s.nalpha + s.nbeta ≤ 0 then
    .error (.litError ("The number of electrons is not positive."))
  else if s.nalpha < s.nbeta then
    .error (.valueError ("n_alpha < n_beta is not valid!"))
  else if s.hasBetaEnergies then
    .ok { restricted := false,
          mo_occs := mo_occs_unrestricted s.nbasisIndep s.nalpha.toNat s.nbeta.toNat,
          rdmKeys := keys }
  else
    let occs := mo_occs_restricted s.nbasisIndep s.nalpha.toNat s.nbeta.toNat
    if s.nalpha ≠ s.nbeta then
      if keys = [] then .error (.keyError ("one_rdms"))
      else if ¬ ("scf" ∈ keys) then .error (.keyError ("scf"))
      else .ok { restricted := true, mo_occs := occs, rdmKeys := keys.erase "scf" }
    else .ok { restricted := true, mo_occs := occs, rdmKeys := keys }

/-! ## Trajectory extraction (`load_many`, lines 253-295)

The field store is abstracted into the per-point data that the generator
reads: the interleaved (energy, reaction-coordinate) results array and the
geometry/gradient arrays already reshaped to step-major form.  The lazy
generator is collapsed into an `Except`-valued list: a failed
`assert len(trajectory) == nstep` (line 277) aborts the whole iteration. -/

/-- Per-point fields `"{prefix} {i:7d} Results for each geome"` /
`"... Geometries"` / `"... Gradient at each geome"`. -/
structure PointData where
  resultsGeoms : List ℚ
  geoms : List (List (List ℚ))
  grads : List (List (List ℚ))
deriving DecidableEq, Repr

/-- The abstracted trajectory field store. -/
structure TrajStore where
  title : String
  atnums : List ℕ
  atcorenums : List ℚ
  isIRC : Bool
  nsteps : List ℕ
  points : List PointData
deriving DecidableEq, Repr

/-- A yielded frame (the `data` dict of lines 279-292). -/
structure TrajFrame where
  title : String
  atnums : List ℕ
  atcorenums : List ℚ
  energy : ℚ
  atcoords : List (List ℚ)
  atgradient : List (List ℚ)
  ipoint : ℕ
  npoint : ℕ
  istep : ℕ
  nstep : ℕ
  reactionCoordinate : Option ℚ
deriving DecidableEq, Repr

/-- Python `lst[::2]`. -/
def sliceEvens : List ℚ → List ℚ
  | [] => []
  | [x] => [x]
  | x :: _ :: rest => x :: sliceEvens rest

/-- Python `lst[1::2]`. -/
def sliceOdds : List ℚ → List ℚ
  | [] => []
  | [_] => []
  | _ :: y :: rest => y :: sliceOdds rest

/-- Python `zip` of four sequences (truncating to the shortest). -/
def zip4 {α β γ δ : Type} (a : List α) (b : List β) (c : List γ) (d : List δ) :
    List (α × β × γ × δ) :=
  a.zip (b.zip (c.zip d))

/-- The `trajectory` list built for one point (lines 272-276). -/
def pointTrajectory (pd : PointData) : List (ℚ × ℚ × List (List ℚ) × List (List ℚ)) :=
  zip4 (sliceEvens pd.resultsGeoms) (sliceOdds pd.resultsGeoms) pd.geoms pd.grads

/-- `len(trajectory)` for a point: the number of paired steps. -/
def pairedSteps (pd : PointData) : ℕ := (pointTrajectory pd).length

/-- A `PointData` with no fields, used as the (never-reached) default of
list indexing in statements. -/
def emptyPoint : PointData := { resultsGeoms := [], geoms := [], grads := [] }

/-- The `for ipoint, nstep in enumerate(nsteps)` loop of `load_many`
(lines 270-295): fetch the three per-point arrays (a missing point raises
`KeyError`), pair them, check the declared step count, and yield the frames
of this point before moving to the next. -/
def loadManyGo (s : TrajStore) : ℕ → List ℕ → Except PyErr (List TrajFrame)
  | _ipoint, [] => .ok []
  | ipoint, nstep :: restSteps =>
    match s.points.get? ipoint with
    | none => .error (.keyError ("point fields"))
    | some pd =>
      let traj := pointTrajectory pd
      if traj.length = nstep then
        match loadManyGo s (ipoint + 1) restSteps with
        | .error e => .error e
        | .ok frames =>
          .ok ((traj.enum.map (fun p =>
            { title := s.title
              atnums := s.atnums
              atcorenums := s.atcorenums
              energy := p.2.1
              atcoords := p.2.2.2.1
              atgradient := p.2.2.2.2
              ipoint := ipoint
              npoint := s.nsteps.length
              istep := p.1
              nstep := nstep
              reactionCoordinate := if s.isIRC then some p.2.2.1 else none })) ++ frames)
      else .error .assertError

/-- `load_many` on the abstracted store. -/
def load_many (s : TrajStore) : Except PyErr (List TrajFrame) := loadManyGo s 0 s.nsteps

/-- The `extra` metadata of a frame, in the order
`(ipoint, npoint, istep, nstep)`. -/
def metaOf (f : TrajFrame) : ℕ × ℕ × ℕ × ℕ := (f.ipoint, f.npoint, f.istep, f.nstep)

/-- The expected point-major, step-minor metadata enumeration starting at
point index `i`. -/
def metaEnumFrom (npoint : ℕ) : ℕ → List ℕ → List (ℕ × ℕ × ℕ × ℕ)
  | _i, [] => []
  | i, n :: rest =>
    (List.range n).map (fun j => (i, npoint, j, n)) ++ metaEnumFrom npoint (i + 1) rest

/-- The expected metadata of a whole trajectory with the given declared step
counts. -/
def metaEnum (nsteps : List ℕ) : List (ℕ × ℕ × ℕ × ℕ) :=
  metaEnumFrom nsteps.length 0 nsteps

/-! ## Triangular storage (`_triangle_to_dense`, `_get_TriangleMat`)

Dense matrices are embedded as functions `ℕ → ℕ → ℚ` together with the
explicit dimension that numpy carries in `shape`. -/

/-- The row dimension computed at line 431:
`int(np.round((np.sqrt(1 + 8*len(triangle)) - 1) / 2))`.  For every length
for which `1 + 8*L` is a perfect (odd) square — in particular for every
triangular number `L = n(n+1)/2`, the only lengths the codec produces —
the float expression is exact and equals this integer-square-root form. -/
def nrowOf (L : ℕ) : ℕ := (Nat.sqrt (1 + 8 * L) - 1) / 2

/-- One iteration of the fill loop (lines 434-438):
`result[irow, :irow+1] = triangle[b:b+irow+1]` followed by
`result[:irow+1, irow] = triangle[b:b+irow+1]` (the two writes agree on the
diagonal, and the later column write wins, so the column test comes first). -/
def fillRow (tri : List ℚ) (b irow : ℕ) (M : ℕ → ℕ → ℚ) : ℕ → ℕ → ℚ :=
  fun i j =>
    if j = irow ∧ i ≤ irow then tri.getD (b + i) 0
    else if i = irow ∧ j ≤ irow then tri.getD (b + j) 0
    else M i j

/-- The `for irow in range(nrow)` loop with its running `begin` offset. -/
def denseLoop (tri : List ℚ) : List ℕ → ℕ → (ℕ → ℕ → ℚ) → (ℕ → ℕ → ℚ)
  | [], _b, M => M
  | irow :: rest, b, M => denseLoop tri rest (b + irow + 1) (fillRow tri b irow M)

/-- `_triangle_to_dense` (lines 415-439): expand triangular storage into the
dense symmetric `nrow × nrow` matrix, starting from `np.zeros((nrow, nrow))`. -/
def _triangle_to_dense (tri : List ℚ) : ℕ → ℕ → ℚ :=
  denseLoop tri (List.range (nrowOf tri.length)) 0 (fun _ _ => 0)

/-- `_get_TriangleMat` (lines 522-548): flatten the lower triangle, scanning
`for i in range(nrow): for j in range(nrow): if j <= i: append(matrix[i][j])`.
The dimension `nrow` is the `matrix.shape` of the numpy argument. -/
def _get_TriangleMat (nrow : ℕ) (matrix : ℕ → ℕ → ℚ) : List ℚ :=
  (List.range nrow).flatMap
    (fun i => (List.range nrow).filterMap (fun j => if j ≤ i then some (matrix i j) else none))

/-- The running `begin` offset of row `i`: the `i`-th triangular number. -/
def triBegin (i : ℕ) : ℕ := i * (i + 1) / 2

/-! ## Concrete sample data

Used by witnesses and counterexamples; all built from the constructors of the
embedded data model. -/

/-- Pad a label to the 43-column label field of an FCHK line. -/
def padTo43 (s : String) : String :=
  s ++ String.mk (List.replicate (43 - s.data.length) (Char.ofNat 32))

/-- A matched scalar header line. -/
def electronLine : String := padTo43 "Number of electrons" ++ "I           42"

/-- An array header line whose label matches no requested pattern. -/
def skipHeaderLine : String := padTo43 "Skip me" ++ "I   N=           7"

/-- First body line of the unmatched array: six 12-column integers. -/
def skipBody1 : String :=
  "           1           2           3           4           5           6"

/-- Second body line of the unmatched array: the seventh value. -/
def skipBody2 : String := "           7"

/-- An unmatched array header declaring one value. -/
def desyncHeader : String := padTo43 "AAA" ++ "I   N=           1"

/-- A crafted body line of that array which, read as a header, matches the
pattern `BBB`. -/
def desyncBody : String := padTo43 "BBB" ++ "I            5"

/-- The genuine matched field after the array. -/
def desyncNext : String := padTo43 "BBB" ++ "I            7"

/-- A matched scalar line whose value token is not a number. -/
def badScalarLine : String := padTo43 "Number of beta electrons" ++ "I          xyz"

/-- A 3-orbital restricted open-shell store with a total SCF density. -/
def wfBase : FchkWf :=
  { hasTotalScf := true, hasSpinScf := false, hasPostScf := false, hasPostScfSpin := false,
    nalpha := 3, nbeta := 2, nbasisIndep := 3, hasBetaEnergies := false }

/-- Electron counts (-1, 0). -/
def wfNegAlpha : FchkWf := { wfBase with nalpha := -1, nbeta := 0 }

/-- Electron counts (0, 0). -/
def wfZeroZero : FchkWf := { wfBase with nalpha := 0, nbeta := 0 }

/-- Electron counts (2, 3). -/
def wfAlphaLtBeta : FchkWf := { wfBase with nalpha := 2, nbeta := 3 }

/-- Counts (3, 2) but the only density present is a spin density. -/
def wfSpinOnly : FchkWf := { wfBase with hasTotalScf := false, hasSpinScf := true }

/-- Counts (3, 2) with no density fields at all. -/
def wfNoDensity : FchkWf := { wfBase with hasTotalScf := false }

/-- Counts (0, -1): alpha exceeds beta but beta is negative. -/
def wfNegBeta : FchkWf := { wfBase with hasTotalScf := false, nalpha := 0, nbeta := -1 }

/-- A pure (spherical) d shell: single angular momentum 2, kind `p`. -/
def pureDShell : Shell :=
  { icenter := 0, angmoms := [2], kinds := ["p"], exponents := [1], coeffs := [[1]] }

/-- A Cartesian d shell: single angular momentum 2, kind `c`. -/
def cartDShell : Shell :=
  { icenter := 0, angmoms := [2], kinds := ["c"], exponents := [1], coeffs := [[1]] }

/-- A pure (spherical) f shell. -/
def pureFShell : Shell :=
  { icenter := 0, angmoms := [3], kinds := ["p"], exponents := [1], coeffs := [[1]] }

/-- An SP shell: momenta {0, 1}, two coefficient columns over two shared
exponents. -/
def spShell : Shell :=
  { icenter := 0, angmoms := [0, 1], kinds := ["c", "c"], exponents := [1, 2],
    coeffs := [[1, 2], [3, 4]] }

/-- A two-point trajectory store whose actual step counts (3 and 2) agree
with the declared `nsteps`. -/
def trajMatch : TrajStore :=
  { title := "t", atnums := [1], atcorenums := [1], isIRC := true, nsteps := [3, 2],
    points := [
      { resultsGeoms := [10, 100, 20, 200, 30, 300],
        geoms := [[[1, 1, 1]], [[2, 2, 2]], [[3, 3, 3]]],
        grads := [[[0, 0, 1]], [[0, 0, 2]], [[0, 0, 3]]] },
      { resultsGeoms := [40, 400, 50, 500],
        geoms := [[[4, 4, 4]], [[5, 5, 5]]],
        grads := [[[0, 0, 4]], [[0, 0, 5]]] }] }

/-- The same point data but with a declared step count of 3 for the
two-step second point. -/
def trajMismatch : TrajStore := { trajMatch with nsteps := [3, 3] }

/-- The frames `load_many` yields on `trajMatch`. -/
def trajMatchFrames : List TrajFrame := (load_many trajMatch).toOption.getD []

/-- A concrete symmetric matrix entry function. -/
def symSample : ℕ → ℕ → ℚ := fun i j => (i : ℚ) * j + 1

/-! ## Helper lemmas -/

/-- `sliceAssign` preserves the length, as a numpy slice assignment does. -/
theorem sliceAssign_length (l : List ℚ) (k : ℕ) (v : ℚ) :
    (sliceAssign l k v).length = l.length := by
  induction l generalizing k with
  | nil => cases k <;> simp [sliceAssign]
  | cons x xs ih => cases k <;> simp [sliceAssign, ih]

/-- Entry-wise description of `sliceAssign`. -/
theorem sliceAssign_getD (l : List ℚ) (k : ℕ) (v : ℚ) (i : ℕ) :
    (sliceAssign l k v).getD i 0 = if i < k ∧ i < l.length then v else l.getD i 0 := by
  induction l generalizing k i with
  | nil => cases k <;> simp [sliceAssign]
  | cons x xs ih =>
    cases k with
    | zero => simp [sliceAssign]
    | succ k =>
      cases i with
      | zero => simp [sliceAssign]
      | succ i => simpa [sliceAssign, Nat.succ_lt_succ_iff] using ih k i

/-- Every entry of `np.zeros` is zero (also past the end, where `getD`
returns the default). -/
theorem npZeros_getD (n i : ℕ) : (npZeros n).getD i 0 = 0 := by
  by_cases h : i < n
  · rw [npZeros, List.getD_eq_getElem _ _ (by simpa using h), List.getElem_replicate]
  · rw [List.getD_eq_default]
    simpa [npZeros] using not_lt.mp h

/-! ## Claim C5 -/

/-- C5: for a file without a beta-orbital-energy field and `alpha ≥ beta > 0`,
the restricted occupation array built by `load_one` has length equal to the
independent-function count, value 2.0 on the first `beta` slots, 1.0 on slots
`beta ≤ i < alpha`, and 0 on the rest. -/
theorem C5_restricted_occupations (nindep nalpha nbeta : ℕ)
    (_hb : 0 < nbeta) (hba : nbeta ≤ nalpha) (han : nalpha ≤ nindep) :
    (mo_occs_restricted nindep nalpha nbeta).length = nindep ∧
    (∀ i, i < nbeta → (mo_occs_restricted nindep nalpha nbeta).getD i 0 = 2) ∧
    (∀ i, nbeta ≤ i → i < nalpha → (mo_occs_restricted nindep nalpha nbeta).getD i 0 = 1) ∧
    (∀ i, nalpha ≤ i → (mo_occs_restricted nindep nalpha nbeta).getD i 0 = 0) := by
  unfold mo_occs_restricted
  have hlen : (sliceAssign (npZeros nindep) nalpha 1).length = nindep := by
    simp [sliceAssign_length, npZeros]
  refine ⟨by simp [sliceAssign_length, hlen], ?_, ?_, ?_⟩
  · intro i hi
    have hin : i < nindep := by omega
    rw [sliceAssign_getD, if_pos ⟨hi, by omega⟩]
  · intro i hbi hia
    have hin : i < nindep := by omega
    rw [sliceAssign_getD, if_neg (by omega), sliceAssign_getD,
      if_pos ⟨hia, by simp [npZeros]; omega⟩]
  · intro i hai
    rw [sliceAssign_getD, if_neg (by omega), sliceAssign_getD, if_neg (by simp [npZeros]; omega),
      npZeros_getD]

/-- Witness for C5 at the spec's concrete instance: alpha=3, beta=2 with
3 independent functions yields occupations [2, 2, 1]. -/
theorem C5_witness :
    mo_occs_restricted 3 3 2 = [2, 2, 1] ∧
    (mo_occs_restricted 3 3 2).getD 0 0 = 2 ∧
    (mo_occs_restricted 3 3 2).getD 2 0 = 1 := by
  refine ⟨by decide,
    (C5_restricted_occupations 3 3 2 (by decide) (by decide) (by decide)).2.1 0 (by decide),
    (C5_restricted_occupations 3 3 2 (by decide) (by decide) (by decide)).2.2.1 2 (by decide)
      (by decide)⟩

/-! ## Claim C6 -/

/-- C6 as stated is false: the load-side gather `[[0, 3, 4, 1, 5, 2]]` sends
`[1, 2, 3, 4, 5, 6]` to `[1, 4, 5, 2, 6, 3]`, not to the claimed
`[1, 4, 6, 2, 3, 5]` (that vector is `_sort_quadrupole`'s output); and applied
to the alphabetical label list it yields `(xx, yy, yz, xy, zz, xz)`, not the
claimed `(xx, yy, zz, xy, xz, yz)`. -/
theorem C6_counterexample :
    loadQuadrupole [(1 : ℚ), 2, 3, 4, 5, 6] 0 = [1, 4, 5, 2, 6, 3] ∧
    loadQuadrupole [(1 : ℚ), 2, 3, 4, 5, 6] 0 ≠ [1, 4, 6, 2, 3, 5] ∧
    _sort_quadrupole [(1 : ℚ), 2, 3, 4, 5, 6] 0 = [1, 4, 6, 2, 3, 5] ∧
    loadQuadrupole ["xx", "xy", "xz", "yy", "yz", "zz"] "" =
      ["xx", "yy", "yz", "xy", "zz", "xz"] := by
  refine ⟨by decide, by decide, by decide, by decide⟩

/-- C6 (amended): the load permutation `[0, 3, 4, 1, 5, 2]` maps the FCHK
source order `(xx, yy, zz, xy, xz, yz)` to the alphabetical order
`(xx, xy, xz, yy, yz, zz)`; `_sort_quadrupole` applies the inverse
permutation, and composing the two in either order recovers any
six-component vector. -/
theorem C6_quadrupole_roundtrip (q : List ℚ) (h : q.length = 6) :
    _sort_quadrupole (loadQuadrupole q 0) 0 = q ∧
    loadQuadrupole (_sort_quadrupole q 0) 0 = q ∧
    loadQuadrupole ["xx", "yy", "zz", "xy", "xz", "yz"] "" =
      ["xx", "xy", "xz", "yy", "yz", "zz"] := by
  obtain ⟨a, b, c, d, e, f, rfl⟩ : ∃ a b c d e f, q = [a, b, c, d, e, f] := by
    rcases q with _ | ⟨a, _ | ⟨b, _ | ⟨c, _ | ⟨d, _ | ⟨e, _ | ⟨f, _ | ⟨g, q⟩⟩⟩⟩⟩⟩⟩ <;>
      first
        | (exact ⟨a, b, c, d, e, f, rfl⟩)
        | (exfalso; simp only [List.length_cons, List.length_nil] at h; omega)
  exact ⟨rfl, rfl, by decide⟩

/-- Witness for C6 (amended) at the concrete vector `[1, 2, 3, 4, 5, 6]`. -/
theorem C6_witness :
    _sort_quadrupole (loadQuadrupole [(1 : ℚ), 2, 3, 4, 5, 6] 0) 0 = [1, 2, 3, 4, 5, 6] ∧
    loadQuadrupole (_sort_quadrupole [(1 : ℚ), 2, 3, 4, 5, 6] 0) 0 = [1, 2, 3, 4, 5, 6] := by
  refine ⟨(C6_quadrupole_roundtrip [1, 2, 3, 4, 5, 6] (by decide)).1,
    (C6_quadrupole_roundtrip [1, 2, 3, 4, 5, 6] (by decide)).2.1⟩

/-! ## Claim C7 -/

/-- C7 is a bug in the code: `_dump_basisInfo` counts shells with re-derived
code `+2` / `+3` (Cartesian d / f in `_get_TypeShell`'s own docstring scheme,
where pure d is `-2` and pure f is `-3`) under the names `pureDshells` /
`pureFshells`.  On a basis containing one pure d shell the emitted
"Pure/Cartesian d shells" count is 0 although the pure-d count is 1, and a
Cartesian d shell is counted instead. -/
theorem C7_pure_shell_counts :
    _get_TypeShell pureDShell = some (-2) ∧
    _get_TypeShell cartDShell = some 2 ∧
    _get_TypeShell pureFShell = some (-3) ∧
    pureDshells [pureDShell] = 0 ∧
    ((shellTypes [pureDShell]).filter (fun t => t = some (-2))).length = 1 ∧
    pureDshells [cartDShell] = 1 ∧
    pureFshells [pureFShell] = 0 := by
  refine ⟨by decide, by decide, by decide, by decide, by decide, by decide, by decide⟩

/-! ## Claim C8 -/

/-- C8 is a bug in the code: when a `post_scf`/`post_scf_spin` density is
present and the level-of-theory string contains none of MP2/MP3/CC/CI (or the
value is absent, which the `getattr` probe turns into the string "None"), the
`namelevel` local is never assigned, so `_dump_rdms` raises
`UnboundLocalError` instead of falling back to a default label.  The
case-insensitive substring selection itself works, as the last two conjuncts
show. -/
theorem C8_rdm_label_selection :
    _dump_rdms ["post_scf"] (some ("HF")) = .error (.unboundLocal ("namelevel")) ∧
    _dump_rdms ["post_scf"] none = .error (.unboundLocal ("namelevel")) ∧
    _dump_rdms ["scf", "scf_spin"] (some ("HF")) =
      .ok ["Total SCF Density", "Spin SCF Density"] ∧
    _dump_rdms ["scf", "post_scf"] (some ("mp2")) =
      .ok ["Total SCF Density", "Total MP2 Density"] ∧
    _dump_rdms ["post_scf_spin"] (some ("ccsd(t)")) = .ok ["Spin CC Density"] := by
  refine ⟨by decide, by decide, by decide, by decide, by decide⟩

/-! ## Claim C10 -/

/-- C10: under the Shell invariant (one angular momentum, or two momenta with
two coefficient columns sharing the exponent sequence), `_get_TypeShell`
always returns a defined code: for a one-momentum shell the momentum, negated
exactly when the kind is pure-spherical and the momentum exceeds 1; for a
two-momentum shell `-1`.  The unassigned-local path is unreachable. -/
theorem C10_get_TypeShell_total (s : Shell)
    (hinv : s.angmoms.length = 1 ∨
      (s.angmoms.length = 2 ∧ s.coeffsSize = 2 * s.exponents.length)) :
    (_get_TypeShell s).isSome = true ∧
    (∀ a : ℕ, s.angmoms = [a] →
      _get_TypeShell s =
        some (if s.kinds.getD 0 "" = "p" ∧ 1 < (a : Int) then -(a : Int) else (a : Int))) ∧
    (s.angmoms.length = 2 → _get_TypeShell s = some (-1)) := by
  refine ⟨?_, ?_, ?_⟩
  · rcases hinv with h1 | ⟨h2, hsz⟩
    · simp only [_get_TypeShell, h1]
      norm_num
      split <;> simp
    · simp [_get_TypeShell, h2, hsz]
  · intro a ha
    have h1 : s.angmoms.length = 1 := by rw [ha]; rfl
    simp only [_get_TypeShell, ha, h1]
    norm_num
    split <;> simp [mul_comm]
  · intro h2
    rcases hinv with h1 | ⟨_, hsz⟩
    · exact absurd (h1.symm.trans h2) (by decide)
    · simp [_get_TypeShell, h2, hsz]

/-- Witness for C10 on a pure d shell and an SP shell. -/
theorem C10_witness :
    (_get_TypeShell pureDShell).isSome = true ∧ _get_TypeShell spShell = some (-1) := by
  refine ⟨(C10_get_TypeShell_total pureDShell (Or.inl (by decide))).1,
    (C10_get_TypeShell_total spShell (Or.inr (by decide))).2.2 (by decide)⟩

/-! ## Claim C3 -/

/-- C3 as stated is false: at the claim's own instance (alpha, beta) = (-1, 0)
the failure is raised through `lit.error` — the `litError` channel, exactly
the one the tokenizer uses for parse errors (last conjunct) — not through an
error kind distinct from ParseError.  The same holds at (0, 0). -/
theorem C3_counterexample :
    loadOneWf wfNegAlpha = .error (.litError ("The number of electrons is not positive.")) ∧
    loadOneWf wfZeroZero = .error (.litError ("The number of electrons is not positive.")) ∧
    _load_fchk_field (some ["Number of beta electrons"]) [badScalarLine] =
      .error (.litError ("Could not interpret: xyz")) := by
  refine ⟨by decide, by decide, by decide⟩

/-- C3 (amended): negative or non-positive electron counts abort `load_one`
through the line iterator's error channel — the same fatal kind as a
ParseError; only `alpha < beta` raises a distinct `ValueError`; when the
counts pass both checks the load proceeds (given the densities the later
open-shell branch pops).  All failures are fatal with no usable result. -/
theorem C3_electron_count_validation (s : FchkWf) :
    (s.nalpha < 0 ∨ s.nbeta < 0 ∨ s.nalpha + s.nbeta ≤ 0 →
      loadOneWf s = .error (.litError ("The number of electrons is not positive."))) ∧
    (¬(s.nalpha < 0 ∨ s.nbeta < 0 ∨ s.nalpha + s.nbeta ≤ 0) → s.nalpha < s.nbeta →
      loadOneWf s = .error (.valueError ("n_alpha < n_beta is not valid!"))) ∧
    (¬(s.nalpha < 0 ∨ s.nbeta < 0 ∨ s.nalpha + s.nbeta ≤ 0) → ¬ s.nalpha < s.nbeta →
      (s.hasBetaEnergies = true ∨ s.nalpha = s.nbeta ∨ "scf" ∈ oneRdmKeys s) →
      (loadOneWf s).isOk = true) := by
  refine ⟨?_, ?_, ?_⟩
  · intro h
    simp [loadOneWf, h]
  · intro h1 h2
    simp [loadOneWf, h1, h2]
  · intro h1 h2 h3
    simp only [loadOneWf, if_neg h1, if_neg h2]
    by_cases hbe : s.hasBetaEnergies
    · simp [hbe, Except.isOk, Except.toBool]
    · rcases h3 with hb | hab | hscf
      · exact absurd hb (by simpa using hbe)
      · simp [hbe, hab, Except.isOk, Except.toBool]
      · by_cases hab : s.nalpha = s.nbeta
        · simp [hbe, hab, Except.isOk, Except.toBool]
        · have hne : oneRdmKeys s ≠ [] := List.ne_nil_of_mem hscf
          simp [hbe, hab, hne, hscf, Except.isOk, Except.toBool]

/-- Witness for C3 (amended) at the spec's four instances: (-1, 0) and (0, 0)
fail through the lit.error channel, (2, 3) through `ValueError`, and (3, 2)
succeeds on a file carrying a total SCF density. -/
theorem C3_witness :
    loadOneWf wfNegAlpha = .error (.litError ("The number of electrons is not positive.")) ∧
    loadOneWf wfAlphaLtBeta = .error (.valueError ("n_alpha < n_beta is not valid!")) ∧
    (loadOneWf wfBase).isOk = true := by
  refine ⟨(C3_electron_count_validation wfNegAlpha).1 (by decide),
    (C3_electron_count_validation wfAlphaLtBeta).2.1 (by decide) (by decide),
    (C3_electron_count_validation wfBase).2.2 (by decide) (by decide)
      (Or.inr (Or.inr (by decide)))⟩

/-! ## Claim C9 -/

/-- C9 as stated is false at one corner: a file with no beta-orbital-energy
field, declared counts (alpha, beta) = (0, -1) — so alpha strictly greater
than beta — and no 'Total SCF Density' aborts in the earlier electron-count
check through the lit.error channel, not with the claimed `KeyError`. -/
theorem C9_counterexample :
    loadOneWf wfNegBeta = .error (.litError ("The number of electrons is not positive.")) ∧
    loadOneWf wfNegBeta ≠ .error (.keyError ("one_rdms")) ∧
    loadOneWf wfNegBeta ≠ .error (.keyError ("scf")) := by
  refine ⟨by decide, by decide, by decide⟩

/-- C9 (amended): for every file with no beta-orbital-energy field whose
declared counts pass the electron-count validation with alpha strictly
greater than beta (in particular beta ≥ 0), `load_one` unconditionally
executes `result['one_rdms'].pop('scf')`; if the file has no
'Total SCF Density' this raises `KeyError` — `KeyError('one_rdms')` when no
density at all was stored, `KeyError('scf')` otherwise — instead of returning
a record or raising a ParseError/ValidationError. -/
theorem C9_open_shell_scf_pop (s : FchkWf)
    (hbe : s.hasBetaEnergies = false) (hba : s.nbeta < s.nalpha) (hb : 0 ≤ s.nbeta)
    (hscf : s.hasTotalScf = false) :
    loadOneWf s = .error (.keyError (if oneRdmKeys s = [] then "one_rdms" else "scf")) := by
  have h1 : ¬(s.nalpha < 0 ∨ s.nbeta < 0 ∨ s.nalpha + s.nbeta ≤ 0) := by omega
  have h2 : ¬ s.nalpha < s.nbeta := by omega
  have h3 : s.nalpha ≠ s.nbeta := by omega
  have hmem : ¬ ("scf" ∈ oneRdmKeys s) := by
    unfold oneRdmKeys
    rw [hscf]
    cases s.hasSpinScf <;> cases s.hasPostScf <;> cases s.hasPostScfSpin <;> decide
  simp only [loadOneWf, if_neg h1, if_neg h2]
  rw [if_neg (show ¬ s.hasBetaEnergies = true by simp [hbe]), if_pos h3]
  by_cases hk : oneRdmKeys s = []
  · simp [hk]
  · rw [if_neg hk, if_pos hmem, if_neg hk]

/-- Witness for C9 (amended): a (3, 2) file whose only density is a spin
density raises `KeyError('scf')`; one with no densities at all raises
`KeyError('one_rdms')`. -/
theorem C9_witness :
    loadOneWf wfSpinOnly = .error (.keyError ("scf")) ∧
    loadOneWf wfNoDensity = .error (.keyError ("one_rdms")) := by
  refine ⟨?_, ?_⟩
  · have h := C9_open_shell_scf_pop wfSpinOnly (by decide) (by decide) (by decide) (by decide)
    simpa using h
  · have h := C9_open_shell_scf_pop wfNoDensity (by decide) (by decide) (by decide) (by decide)
    simpa using h

/-! ## Claim C4 -/

/-- Mapping a function of the index over `enum` is mapping it over `range`. -/
theorem enum_map_index {α β : Type} (l : List α) (g : ℕ → β) :
    l.enum.map (fun p => g p.1) = (List.range l.length).map g := by
  apply List.ext_getElem
  · simp [List.enum_length]
  · intro n h1 h2
    simp [List.getElem_enum]

/-- On success, the generator loop yields frames whose metadata is exactly
the point-major, step-minor enumeration of the declared step counts. -/
theorem loadManyGo_meta (s : TrajStore) :
    ∀ (l : List ℕ) (i : ℕ) (frames : List TrajFrame),
      loadManyGo s i l = .ok frames →
      frames.map metaOf = metaEnumFrom s.nsteps.length i l := by
  intro l
  induction l with
  | nil =>
    intro i frames h
    simp only [loadManyGo] at h
    cases h
    simp [metaEnumFrom]
  | cons n rest ih =>
    intro i frames h
    simp only [loadManyGo] at h
    split at h
    · simp at h
    · next pd _hpd =>
      split at h
      · next hlen =>
        split at h
        · simp at h
        · next frames' hrec =>
          cases h
          rw [List.map_append]
          simp only [metaEnumFrom]
          congr 1
          · rw [List.map_map]
            have hidx := enum_map_index (pointTrajectory pd)
              (fun j => (i, s.nsteps.length, j, n))
            rw [hlen] at hidx
            exact hidx
          · exact ih (i + 1) frames' hrec
      · simp at h

/-- If the paired step count of some point disagrees with its declared count,
the generator loop aborts with the failed assertion. -/
theorem loadManyGo_mismatch (s : TrajStore) :
    ∀ (l : List ℕ) (i : ℕ),
      i + l.length ≤ s.points.length →
      (∃ k, k < l.length ∧ pairedSteps (s.points.getD (i + k) emptyPoint) ≠ l.getD k 0) →
      loadManyGo s i l = .error .assertError := by
  intro l
  induction l with
  | nil =>
    intro i _ hex
    rcases hex with ⟨k, hk, _⟩
    exact absurd hk (by simp)
  | cons n rest ih =>
    intro i hfit hex
    have hi : i < s.points.length := by
      simp only [List.length_cons] at hfit
      omega
    have hsome : s.points.get? i = some (s.points.getD i emptyPoint) := by
      rw [List.get?_eq_getElem?, s.points.getElem?_eq_getElem hi,
        List.getD_eq_getElem _ _ hi]
    simp only [loadManyGo, hsome]
    by_cases h0 : (pointTrajectory (s.points.getD i emptyPoint)).length = n
    · rw [if_pos h0]
      have : loadManyGo s (i + 1) rest = .error .assertError := by
        apply ih (i + 1) (by simp only [List.length_cons] at hfit; omega)
        rcases hex with ⟨k, hk, hne⟩
        cases k with
        | zero =>
          exact absurd h0 (by simpa [pairedSteps] using hne)
        | succ k =>
          refine ⟨k, by simp only [List.length_cons] at hk; omega, ?_⟩
          have harith : i + 1 + k = i + (k + 1) := by omega
          rw [harith]
          simpa using hne
      rw [this]
    · rw [if_neg h0]

/-- C4: frames come out in point-major, step-minor order carrying
(ipoint 0-based, npoint = total points, istep 0-based, nstep = declared steps
of the point); and whenever the actual number of paired steps of some point
differs from its declared count, `load_many` fails with the fatal failed
assertion (the spec's ValidationError — a fatal error distinct from the
parse-error channel, raised after tokenization). -/
theorem C4_trajectory_frames (s : TrajStore) (hfit : s.nsteps.length ≤ s.points.length) :
    (∀ frames, load_many s = .ok frames → frames.map metaOf = metaEnum s.nsteps) ∧
    ((∃ k, k < s.nsteps.length ∧
        pairedSteps (s.points.getD k emptyPoint) ≠ s.nsteps.getD k 0) →
      load_many s = .error .assertError) := by
  constructor
  · intro frames h
    exact loadManyGo_meta s s.nsteps 0 frames h
  · intro hex
    apply loadManyGo_mismatch s s.nsteps 0 (by omega)
    simpa using hex

/-- Witness for C4: two points with declared step counts [3, 2] yield exactly
the five frames (0,2,0,3), (0,2,1,3), (0,2,2,3), (1,2,0,2), (1,2,1,2); the
same data with declared counts [3, 3] fails the assertion. -/
theorem C4_witness :
    load_many trajMatch = .ok trajMatchFrames ∧
    trajMatchFrames.map metaOf =
      [(0, 2, 0, 3), (0, 2, 1, 3), (0, 2, 2, 3), (1, 2, 0, 2), (1, 2, 1, 2)] ∧
    load_many trajMismatch = .error .assertError := by
  have h0 : load_many trajMatch = .ok trajMatchFrames := by decide
  refine ⟨h0, ?_, ?_⟩
  · have := (C4_trajectory_frames trajMatch (by decide)).1 trajMatchFrames h0
    rw [this]
    decide
  · exact (C4_trajectory_frames trajMismatch (by decide)).2 ⟨1, by decide, by decide⟩

/-! ## Claim C1 -/

/-- One line the `while True` loop passes over is simply dropped: the reader
behaves on `l :: ls` exactly as on `ls`. -/
theorem load_fchk_field_skip (pats : List String) (l : String) (ls : List String)
    (hl : skipLineB pats l = true) :
    _load_fchk_field (some pats) (l :: ls) = _load_fchk_field (some pats) ls := by
  simp only [_load_fchk_field]
  cases hw : pySplit (pyDrop l 43) with
  | nil => rfl
  | cons w0 wrest =>
    dsimp only
    simp only [skipLineB, hw] at hl
    by_cases hIR : w0 = "I" ∨ w0 = "R"
    · rw [if_pos hIR] at hl ⊢
      simp only [Bool.not_eq_eq_eq_not, Bool.not_true] at hl
      rw [hl]
      simp
    · rw [if_neg hIR]

/-- C1 (amended): the reader does not length-consume unmatched arrays;
instead every line whose post-column-43 part has no tokens or does not start
with a type code, and every type-code line whose label matches no pattern, is
skipped one line at a time.  Over any block of such lines — which includes
every unmatched field header and every numerically formatted array body
line — the cursor advances to the rest of the stream unchanged, so the next
matched field parses correctly and, with nothing left, the store drains to
end of input. -/
theorem C1_reader_skips_unmatched (pats : List String) (junk rest : List String)
    (hJ : ∀ l ∈ junk, skipLineB pats l = true) :
    _load_fchk_field (some pats) (junk ++ rest) = _load_fchk_field (some pats) rest := by
  induction junk with
  | nil => rfl
  | cons l J ih =>
    rw [List.cons_append,
      load_fchk_field_skip pats l (J ++ rest) (hJ l (List.mem_cons_self l J))]
    exact ih (fun x hx => hJ x (List.mem_cons_of_mem l hx))

/-- Witness for C1 (amended): an unmatched array of declared length 7 whose
body is spread over two numeric continuation lines is skipped entirely, after
which the matched scalar field parses correctly; and a stream consisting only
of such lines is drained to end of input. -/
theorem C1_witness :
    _load_fchk_field (some ["Number of electrons"])
        ([skipHeaderLine, skipBody1, skipBody2] ++ [electronLine]) =
      .ok (some (("Number of electrons", .intScalar 42), [])) ∧
    _load_fchk_field (some ["Number of electrons"])
        ([skipHeaderLine, skipBody1, skipBody2] ++ []) = .ok none := by
  refine ⟨?_, ?_⟩
  · rw [C1_reader_skips_unmatched (["Number of electrons"])
      [skipHeaderLine, skipBody1, skipBody2] [electronLine] (by decide)]
    decide
  · rw [C1_reader_skips_unmatched (["Number of electrons"])
      [skipHeaderLine, skipBody1, skipBody2] [] (by decide)]
    rfl

/-- C1 as stated is false: the reader checks the pattern before ever reading
an array's declared length, so an unmatched array is not consumed by the
length-driven continuation logic.  On this stream the unmatched array `AAA`
declares one value; its body line, whose post-column-43 text looks like a
scalar header with the matched label `BBB`, is returned as a field with
value 5 — the cursor never advances past the array to the genuine matched
field on the following line (value 7). -/
theorem C1_counterexample :
    _load_fchk_field (some ["BBB"]) [desyncHeader, desyncBody, desyncNext] =
      .ok (some (("BBB", .intScalar 5), [desyncNext])) ∧
    _load_fchk_field (some ["BBB"]) [desyncHeader, desyncBody, desyncNext] ≠
      .ok (some (("BBB", .intScalar 7), [])) := by
  refine ⟨by decide, by decide⟩

/-! ## Claim C2 -/

/-- Congruence of `flatMap` over the members of the list. -/
theorem flatMap_congr_mem {α β : Type} (l : List α) (f g : α → List β)
    (h : ∀ x ∈ l, f x = g x) : l.flatMap f = l.flatMap g := by
  induction l with
  | nil => rfl
  | cons a l ih =>
    simp only [List.flatMap_cons]
    rw [h a (List.mem_cons_self a l), ih (fun x hx => h x (List.mem_cons_of_mem a hx))]

/-- The inner `for j in range(nrow): if j <= i` scan of `_get_TriangleMat`
collects exactly the first `i + 1` entries of row `i`. -/
theorem triangle_row_eq (n i : ℕ) (m : ℕ → ℕ → ℚ) (hin : i < n) :
    (List.range n).filterMap (fun j => if j ≤ i then some (m i j) else none) =
      (List.range (i + 1)).map (m i) := by
  induction n with
  | zero => omega
  | succ n ih =>
    by_cases h : i < n
    · rw [List.range_succ, List.filterMap_append, ih h]
      have hnil : (List.filterMap (fun j => if j ≤ i then some (m i j) else none) [n]) = [] := by
        simp only [List.filterMap_cons, List.filterMap_nil]
        rw [if_neg (by omega)]
      rw [hnil, List.append_nil]
    · have hieq : i = n := by omega
      subst hieq
      have hcong : ∀ x ∈ List.range (i + 1),
          (fun j => if j ≤ i then some (m i j) else none) x = (fun j => some (m i j)) x := by
        intro x hx
        have hx' := List.mem_range.mp hx
        simp only
        rw [if_pos (by omega)]
      rw [List.filterMap_congr hcong,
        show (fun j => some (m i j)) = some ∘ (m i) from rfl, List.filterMap_eq_map]

/-- Peeling off the last row of the triangular flattening. -/
theorem getTriangleMat_succ (n : ℕ) (m : ℕ → ℕ → ℚ) :
    _get_TriangleMat (n + 1) m = _get_TriangleMat n m ++ (List.range (n + 1)).map (m n) := by
  unfold _get_TriangleMat
  nth_rewrite 1 [List.range_succ]
  rw [List.flatMap_append]
  congr 1
  · apply flatMap_congr_mem
    intro i hi
    have hin : i < n := List.mem_range.mp hi
    rw [triangle_row_eq (n + 1) i m (by omega), triangle_row_eq n i m hin]
  · simp only [List.flatMap_cons, List.flatMap_nil, List.append_nil]
    exact triangle_row_eq (n + 1) n m (by omega)

/-- The triangular-number recurrence. -/
theorem triBegin_succ (k : ℕ) : triBegin (k + 1) = triBegin k + (k + 1) := by
  rcases Nat.even_mul_succ_self k with ⟨c, hc⟩
  rcases Nat.even_mul_succ_self (k + 1) with ⟨d, hd⟩
  have hcd : d = c + (k + 1) := by
    have hexp : (k + 1) * (k + 1 + 1) = k * (k + 1) + 2 * (k + 1) := by ring
    rw [hc] at hexp
    omega
  unfold triBegin
  rw [hc, hd, hcd]
  omega

/-- Monotonicity of the triangular numbers. -/
theorem triBegin_mono {i k : ℕ} (h : i ≤ k) : triBegin i ≤ triBegin k :=
  Nat.div_le_div_right (Nat.mul_le_mul h (by omega))

/-- The flattened triangle of an `n × n` matrix has `n(n+1)/2` entries. -/
theorem getTriangleMat_length (n : ℕ) (m : ℕ → ℕ → ℚ) :
    (_get_TriangleMat n m).length = triBegin n := by
  induction n with
  | zero => simp [_get_TriangleMat, triBegin]
  | succ n ih =>
    rw [getTriangleMat_succ, List.length_append, ih, List.length_map, List.length_range,
      triBegin_succ]

/-- Entry `triBegin i + j` of the flattened triangle is `m i j`
(for `j ≤ i < n`). -/
theorem getTriangleMat_getD (n : ℕ) (m : ℕ → ℕ → ℚ) :
    ∀ i j, i < n → j ≤ i → (_get_TriangleMat n m).getD (triBegin i + j) 0 = m i j := by
  induction n with
  | zero => intro i j hi _; omega
  | succ n ih =>
    intro i j hi hj
    rw [getTriangleMat_succ]
    by_cases hin : i < n
    · rw [List.getD_append _ _ _ _ ?bound]
      case bound =>
        rw [getTriangleMat_length]
        have h1 : triBegin i + j < triBegin (i + 1) := by rw [triBegin_succ]; omega
        have h2 : triBegin (i + 1) ≤ triBegin n := triBegin_mono (by omega)
        omega
      exact ih i j hin hj
    · have hieq : i = n := by omega
      subst hieq
      rw [List.getD_append_right _ _ _ _ (by rw [getTriangleMat_length]; omega),
        getTriangleMat_length]
      have hsub : triBegin i + j - triBegin i = j := by omega
      rw [hsub, List.getD_eq_getElem _ _ (by simp only [List.length_map, List.length_range]; omega)]
      simp

/-- Splitting the dense-fill loop at an append of row blocks. -/
theorem denseLoop_append (tri : List ℚ) (xs ys : List ℕ) (b : ℕ) (M : ℕ → ℕ → ℚ) :
    denseLoop tri (xs ++ ys) b M =
      denseLoop tri ys (b + (xs.map (· + 1)).sum) (denseLoop tri xs b M) := by
  induction xs generalizing b M with
  | nil => simp [denseLoop]
  | cons x xs ih =>
    simp only [List.cons_append, denseLoop, List.append_eq]
    rw [ih]
    have harith : b + x + 1 + (List.map (fun y => y + 1) xs).sum
        = b + (List.map (fun y => y + 1) (x :: xs)).sum := by
      simp only [List.map_cons, List.sum_cons]
      omega
    rw [harith]

/-- The running `begin` offset after the first `k` rows. -/
theorem rowSum_range (k : ℕ) : ((List.range k).map (· + 1)).sum = triBegin k := by
  induction k with
  | zero => simp [triBegin]
  | succ k ih =>
    rw [List.range_succ, List.map_append, List.sum_append, ih, triBegin_succ]
    simp

/-- Entry-wise description of the dense-fill loop over the first `k` rows:
inside the filled `k × k` block the entry at `(i, j)` is the triangle element
of the lower-triangle position, mirrored across the diagonal. -/
theorem denseLoop_char (tri : List ℚ) :
    ∀ (k i j : ℕ), i < k → j < k →
      denseLoop tri (List.range k) 0 (fun _ _ => 0) i j =
        if j ≤ i then tri.getD (triBegin i + j) 0 else tri.getD (triBegin j + i) 0 := by
  intro k
  induction k with
  | zero => intro i j hi _; omega
  | succ k ih =>
    intro i j hi hj
    rw [List.range_succ, denseLoop_append, rowSum_range]
    simp only [denseLoop, Nat.zero_add]
    unfold fillRow
    by_cases hjk : j = k
    · subst hjk
      rw [if_pos ⟨rfl, by omega⟩]
      by_cases hik : i = j
      · subst hik
        rw [if_pos (by omega)]
      · rw [if_neg (by omega)]
    · by_cases hik : i = k
      · subst hik
        rw [if_neg (by omega), if_pos ⟨rfl, by omega⟩, if_pos (by omega)]
      · rw [if_neg (by omega), if_neg (by omega)]
        exact ih i j (by omega) (by omega)

/-- The float row-count formula recovers `n` from a triangular length. -/
theorem nrowOf_triBegin (n : ℕ) : nrowOf (triBegin n) = n := by
  have key : 1 + 8 * triBegin n = (2 * n + 1) * (2 * n + 1) := by
    rcases Nat.even_mul_succ_self n with ⟨c, hc⟩
    have h1 : triBegin n = c := by unfold triBegin; rw [hc]; omega
    calc 1 + 8 * triBegin n = 1 + 4 * (c + c) := by rw [h1]; ring
      _ = 1 + 4 * (n * (n + 1)) := by rw [hc]
      _ = (2 * n + 1) * (2 * n + 1) := by ring
  unfold nrowOf
  rw [key, Nat.sqrt_eq]
  omega

/-- C2: for every symmetric `n × n` matrix (`n ≥ 1`), flattening the lower
triangle with `_get_TriangleMat` and expanding back with `_triangle_to_dense`
(whose dimension is recovered as `round((sqrt(1+8L)-1)/2)`) recovers every
entry of the original matrix. -/
theorem C2_triangle_roundtrip (n : ℕ) (_hn : 1 ≤ n) (M : ℕ → ℕ → ℚ)
    (hsym : ∀ i j, M i j = M j i) (i j : ℕ) (hi : i < n) (hj : j < n) :
    _triangle_to_dense (_get_TriangleMat n M) i j = M i j := by
  unfold _triangle_to_dense
  rw [getTriangleMat_length, nrowOf_triBegin, denseLoop_char _ n i j hi hj]
  by_cases hji : j ≤ i
  · rw [if_pos hji, getTriangleMat_getD n M i j hi hji]
  · rw [if_neg hji, getTriangleMat_getD n M j i hj (by omega), hsym j i]

/-- Witness for C2 on the concrete symmetric 2 × 2 matrix `i*j + 1`. -/
theorem C2_witness :
    _triangle_to_dense (_get_TriangleMat 2 symSample) 1 0 = symSample 1 0 ∧
    _triangle_to_dense (_get_TriangleMat 2 symSample) 0 1 = symSample 0 1 := by
  have hsym : ∀ i j, symSample i j = symSample j i := by
    intro i j
    unfold symSample
    ring
  exact ⟨C2_triangle_roundtrip 2 (by decide) symSample hsym 1 0 (by decide) (by decide),
    C2_triangle_roundtrip 2 (by decide) symSample hsym 0 1 (by decide) (by decide)⟩
